import Mathlib

/-!
Verification of the stock-analysis request/response pipeline
(`src/services/geminiService.ts` and the error handling in `src/App.tsx`)
against its natural-language specification.

Every definition below is a shallow embedding of the corresponding
TypeScript source. Strings are modelled as `List Char`; JavaScript
`undefined`/missing values as `Option`; thrown exceptions as `Except`.
-/

set_option maxRecDepth 8000

namespace CustomStrategy

/-! ## Fence stripping

`geminiService.ts` line 142 runs `rawText.replace(/```json|```/g, "")`:
a left-to-right scan that at each position removes a literal "```json"
(preferred, the left alternative), else a literal "```", else keeps the
character. -/

/-- Whether the list starts with three consecutive backticks. -/
def startsFence : List Char → Bool
  | c1 :: c2 :: c3 :: _ => c1 = '`' && c2 = '`' && c3 = '`'
  | _ => false

/-- Whether a triple-backtick fence marker occurs anywhere in the list. -/
def hasFence : List Char → Bool
  | [] => false
  | c :: rest => startsFence (c :: rest) || hasFence rest

/-- Whether the list starts with a backtick. -/
def headIsTick : List Char → Bool
  | '`' :: _ => true
  | _ => false

/-- The global replacement `/```json|```/g → ""` of `geminiService.ts` line 142:
scan left to right, dropping "```json" first, else "```", else keeping the
character. -/
def stripFences : List Char → List Char
  | '`' :: '`' :: '`' :: 'j' :: 's' :: 'o' :: 'n' :: rest => stripFences rest
  | '`' :: '`' :: '`' :: rest => stripFences rest
  | c :: rest => c :: stripFences rest
  | [] => []

theorem hasFence_cons (c : Char) (rest : List Char) :
    hasFence (c :: rest) = (startsFence (c :: rest) || hasFence rest) := rfl

theorem startsFence_false_of_head {c : Char} (h : c ≠ '`') (xs : List Char) :
    startsFence (c :: xs) = false := by
  match xs with
  | [] => rfl
  | [a] => rfl
  | a :: b :: rest => simp [startsFence, h]

/-- `startsFence` only looks at the first three characters, so appending after
a non-backtick head cannot create a fence at the front. -/
theorem startsFence_cons_append {c : Char} {l s : List Char}
    (hl : startsFence (c :: l) = false) (hs : headIsTick s = false) :
    startsFence (c :: (l ++ s)) = false := by
  match l with
  | [] =>
    match s with
    | [] => rfl
    | [a] =>
      have ha : a ≠ '`' := by
        intro h; subst h; simp [headIsTick] at hs
      simp [startsFence, ha]
    | a :: b :: rest =>
      have ha : a ≠ '`' := by
        intro h; subst h; simp [headIsTick] at hs
      simp [startsFence, ha]
  | [a] =>
    match s with
    | [] => simpa using hl
    | b :: rest =>
      have hb : b ≠ '`' := by
        intro h; subst h; simp [headIsTick] at hs
      simp [startsFence, hb]
  | a :: b :: rest => simpa [startsFence] using hl

/-- A fence-free list followed by a list not starting with a backtick
contributes no fence occurrence. -/
theorem hasFence_append {l s : List Char} (hl : hasFence l = false)
    (hs : headIsTick s = false) : hasFence (l ++ s) = hasFence s := by
  induction l with
  | nil => simp
  | cons c rest ih =>
    rw [hasFence_cons] at hl
    have h1 : startsFence (c :: rest) = false := by
      cases hsf : startsFence (c :: rest) <;> simp [hsf] at hl ⊢
    have h2 : hasFence rest = false := by
      cases hhf : hasFence rest <;> simp [hhf] at hl ⊢
    rw [List.cons_append, hasFence_cons, startsFence_cons_append h1 hs, ih h2]
    simp

theorem stripFences_cons_of_not_fence {c : Char} {xs : List Char}
    (h : startsFence (c :: xs) = false) :
    stripFences (c :: xs) = c :: stripFences xs := by
  rw [stripFences.eq_def]
  split
  · rename_i heq
    injection heq with hc hx
    subst hc; subst hx
    simp [startsFence] at h
  · rename_i heq
    injection heq with hc hx
    subst hc; subst hx
    simp [startsFence] at h
  · rename_i heq
    injection heq with hc hx
    subst hc; subst hx; rfl
  · rename_i heq
    simp at heq

/-- Stripping distributes over an append whose left part is fence-free and
whose right part does not begin with a backtick (so no fence spans the
boundary). -/
theorem stripFences_append {r : List Char} (l : List Char)
    (hl : hasFence l = false) (hr : headIsTick r = false) :
    stripFences (l ++ r) = l ++ stripFences r := by
  induction l using stripFences.induct with
  | case1 rest ih =>
    rw [hasFence_cons] at hl
    simp [startsFence] at hl
  | case2 rest ih =>
    rw [hasFence_cons] at hl
    simp [startsFence] at hl
  | case3 c rest h7 h3 ih =>
    rw [hasFence_cons] at hl
    have h1 : startsFence (c :: rest) = false := by
      cases hsf : startsFence (c :: rest) <;> simp [hsf] at hl ⊢
    have h2 : hasFence rest = false := by
      cases hhf : hasFence rest <;> simp [hhf] at hl ⊢
    rw [List.cons_append,
      stripFences_cons_of_not_fence (startsFence_cons_append h1 hr), ih h2]
    simp
  | case4 => simp

/-- A fence-free text is untouched by the global fence replacement. -/
theorem stripFences_of_no_fence {l : List Char} (hl : hasFence l = false) :
    stripFences l = l := by
  have h0 : stripFences ([] : List Char) = [] := rfl
  have := stripFences_append (r := []) l hl rfl
  simpa [h0] using this

/-! ## Trimming and substring search

`String.prototype.trim` removes leading and trailing whitespace;
`String.prototype.includes` is substring search; `text.match(/\{[\s\S]*\}/)`
finds the span from the first opening brace to the last closing brace. -/

/-- Whitespace characters removed by JavaScript `trim` (the common ones). -/
def isJsWS (c : Char) : Bool :=
  c = ' ' || c = '\t' || c = '\n' || c = '\r' || c = '\x0b' || c = '\x0c'

/-- JavaScript `String.prototype.trim`. -/
def trimWS (l : List Char) : List Char :=
  ((l.dropWhile isJsWS).reverse.dropWhile isJsWS).reverse

/-- JavaScript `String.prototype.includes`: whether `p` occurs in the list. -/
def containsSub (p : List Char) : List Char → Bool
  | [] => p.isPrefixOf []
  | c :: rest => p.isPrefixOf (c :: rest) || containsSub p rest

/-- The regex match `/\{[\s\S]*\}/` of `geminiService.ts` line 144: the span
from the first opening brace to the last closing brace, when the latter comes
after the former. -/
def bracketSpan (l : List Char) : Option (List Char) :=
  match List.findIdx? (fun c => c = '{') l,
        List.findIdx? (fun c => c = '}') l.reverse with
  | some i, some k =>
    let j := l.length - 1 - k
    if i < j then some ((l.drop i).take (j - i + 1)) else none
  | _, _ => none

/-! ## JSON values and `JSON.parse`

The response pipeline funnels the raw model text through `JSON.parse`.
Numeric literals are kept as their lexeme (the parsed double would add
nothing to the claims and would drag in floating-point). Duplicate object
keys follow JavaScript: the later value wins, the key keeps its first
position. -/

inductive Json where
  | null : Json
  | bool : Bool → Json
  | num : List Char → Json
  | str : List Char → Json
  | arr : List Json → Json
  | obj : List (List Char × Json) → Json

/-- JavaScript property assignment on an object literal: an existing key keeps
its position and gets the new value, a new key is appended. Used both for
duplicate keys in `JSON.parse` and for the `{...data, sources: …}` spread. -/
def objInsert (fields : List (List Char × Json)) (k : List Char) (v : Json) :
    List (List Char × Json) :=
  if fields.any (fun p => p.1 = k) then
    fields.map (fun p => if p.1 = k then (k, v) else p)
  else fields ++ [(k, v)]

/-- Object field lookup (JavaScript property read; keys are unique). -/
def lookupKV (k : List Char) : List (List Char × Json) → Option Json
  | [] => none
  | (k', v) :: rest => if k' = k then some v else lookupKV k rest

/-- JSON whitespace (as skipped by `JSON.parse`). -/
def isJsonWS (c : Char) : Bool :=
  c = ' ' || c = '\t' || c = '\n' || c = '\r'

def skipWS (l : List Char) : List Char := l.dropWhile isJsonWS

def consFst (c : Char) :
    Option (List Char × List Char) → Option (List Char × List Char)
  | some (s, r) => some (c :: s, r)
  | none => none

def hexVal (c : Char) : Option Nat :=
  if '0' ≤ c ∧ c ≤ '9' then some (c.toNat - '0'.toNat)
  else if 'a' ≤ c ∧ c ≤ 'f' then some (c.toNat - 'a'.toNat + 10)
  else if 'A' ≤ c ∧ c ≤ 'F' then some (c.toNat - 'A'.toNat + 10)
  else none

/-- The body of a JSON string after its opening quote: the decoded content
and the rest of the input after the closing quote. Raw control characters
are rejected, escapes are decoded as `JSON.parse` does (a `\u` escape
denoting a surrogate half, which `Char` cannot carry, falls back to `⟨0⟩`;
no claim exercises it). -/
def parseStringBody : List Char → Option (List Char × List Char)
  | [] => none
  | '"' :: rest => some ([], rest)
  | '\\' :: '"' :: rest => consFst '"' (parseStringBody rest)
  | '\\' :: '\\' :: rest => consFst '\\' (parseStringBody rest)
  | '\\' :: '/' :: rest => consFst '/' (parseStringBody rest)
  | '\\' :: 'b' :: rest => consFst '\x08' (parseStringBody rest)
  | '\\' :: 'f' :: rest => consFst '\x0c' (parseStringBody rest)
  | '\\' :: 'n' :: rest => consFst '\n' (parseStringBody rest)
  | '\\' :: 'r' :: rest => consFst '\r' (parseStringBody rest)
  | '\\' :: 't' :: rest => consFst '\t' (parseStringBody rest)
  | '\\' :: 'u' :: h1 :: h2 :: h3 :: h4 :: rest =>
    match hexVal h1, hexVal h2, hexVal h3, hexVal h4 with
    | some a, some b, some c, some d =>
      consFst (Char.ofNat (a * 4096 + b * 256 + c * 16 + d)) (parseStringBody rest)
    | _, _, _, _ => none
  | '\\' :: _ => none
  | c :: rest =>
    if c.toNat < 32 then none else consFst c (parseStringBody rest)

def isDigit (c : Char) : Bool := '0' ≤ c && c ≤ '9'

/-- Integer part of a JSON number: `0` or a nonzero digit followed by digits. -/
def parseIntPart : List Char → Option (List Char × List Char)
  | '0' :: r => some (['0'], r)
  | c :: r => if isDigit c then some (c :: r.takeWhile isDigit, r.dropWhile isDigit) else none
  | [] => none

/-- Optional fraction part `.digits`. -/
def parseFracPart : List Char → Option (List Char × List Char)
  | '.' :: r =>
    let ds := r.takeWhile isDigit
    if ds.isEmpty then none else some ('.' :: ds, r.dropWhile isDigit)
  | l => some ([], l)

/-- Optional exponent part `e|E [+|-] digits`. -/
def parseExpPart : List Char → Option (List Char × List Char)
  | c :: r =>
    if c = 'e' || c = 'E' then
      let (sg, r1) : List Char × List Char :=
        match r with
        | '+' :: r2 => (['+'], r2)
        | '-' :: r2 => (['-'], r2)
        | _ => ([], r)
      let ds := r1.takeWhile isDigit
      if ds.isEmpty then none else some (c :: (sg ++ ds), r1.dropWhile isDigit)
    else some ([], c :: r)
  | [] => some ([], [])

/-- A JSON number lexeme per the `JSON.parse` grammar, kept verbatim. -/
def parseNumberLex (l : List Char) : Option (List Char × List Char) :=
  let (sgn, l1) : List Char × List Char :=
    match l with
    | '-' :: r => (['-'], r)
    | _ => ([], l)
  match parseIntPart l1 with
  | none => none
  | some (ip, r1) =>
    match parseFracPart r1 with
    | none => none
    | some (fp, r2) =>
      match parseExpPart r2 with
      | none => none
      | some (ep, r3) => some (sgn ++ ip ++ fp ++ ep, r3)

/-- Parser modes: a value, the members of an object after `{`, or the
elements of an array after `[`, with the fields/elements read so far. -/
inductive PMode where
  | value : PMode
  | members : List (List Char × Json) → PMode
  | elems : List Json → PMode

/-- The recursive core of `JSON.parse`, fuelled (two units of fuel cover at
least one consumed character, so `2 * length + 2` always suffices). -/
def parseRun : Nat → PMode → List Char → Option (Json × List Char)
  | 0, _, _ => none
  | fuel + 1, .value, l =>
    match skipWS l with
    | [] => none
    | '"' :: rest =>
      match parseStringBody rest with
      | some (s, r) => some (Json.str s, r)
      | none => none
    | '{' :: rest =>
      match skipWS rest with
      | '}' :: r2 => some (Json.obj [], r2)
      | l2 => parseRun fuel (.members []) l2
    | '[' :: rest =>
      match skipWS rest with
      | ']' :: r2 => some (Json.arr [], r2)
      | l2 => parseRun fuel (.elems []) l2
    | 't' :: 'r' :: 'u' :: 'e' :: rest => some (Json.bool true, rest)
    | 'f' :: 'a' :: 'l' :: 's' :: 'e' :: rest => some (Json.bool false, rest)
    | 'n' :: 'u' :: 'l' :: 'l' :: rest => some (Json.null, rest)
    | l' =>
      match parseNumberLex l' with
      | some (lex, r) => some (Json.num lex, r)
      | none => none
  | fuel + 1, .members acc, l =>
    match skipWS l with
    | '"' :: rest =>
      match parseStringBody rest with
      | some (k, r1) =>
        match skipWS r1 with
        | ':' :: r2 =>
          match parseRun fuel .value r2 with
          | some (v, r3) =>
            match skipWS r3 with
            | ',' :: r4 => parseRun fuel (.members (objInsert acc k v)) r4
            | '}' :: r4 => some (Json.obj (objInsert acc k v), r4)
            | _ => none
          | none => none
        | _ => none
      | none => none
    | _ => none
  | fuel + 1, .elems acc, l =>
    match parseRun fuel .value l with
    | some (v, r) =>
      match skipWS r with
      | ',' :: r2 => parseRun fuel (.elems (acc ++ [v])) r2
      | ']' :: r2 => some (Json.arr (acc ++ [v]), r2)
      | _ => none
    | none => none

/-- `JSON.parse`: parse one JSON value and require only whitespace after it;
`none` models the thrown `SyntaxError`. -/
def parseJson (l : List Char) : Option Json :=
  match parseRun (2 * l.length + 2) .value l with
  | some (j, rest) => if skipWS rest = [] then some j else none
  | none => none

/-! ## Response extraction (`geminiService.ts` lines 138-150)

The raw model text is first fence-stripped, trimmed and parsed; on a parse
failure the bracket span `/\{[\s\S]*\}/` of the original text is parsed.
The inner `JSON.parse(jsonMatch[0])` on line 146 is not guarded, so its
`SyntaxError` propagates as-is; only a missing span raises the typed
malformed-response error of line 148. -/

inductive ExtractErr where
  /-- the thrown `Error("분석 데이터를 파싱하는 데 실패했습니다.")` of line 148 -/
  | malformedResponse : ExtractErr
  /-- an unguarded `SyntaxError` escaping from `JSON.parse` on line 146 -/
  | syntaxError : ExtractErr
deriving DecidableEq

def extractResponse (raw : List Char) : Except ExtractErr Json :=
  match parseJson (trimWS (stripFences raw)) with
  | some j => .ok j
  | none =>
    match bracketSpan raw with
    | some s =>
      match parseJson s with
      | some j => .ok j
      | none => .error .syntaxError
    | none => .error .malformedResponse

/-! ## Grounding-source merge (`geminiService.ts` lines 152-163) -/

structure WebRef where
  /-- `chunk.web.title`, possibly absent or empty -/
  title : Option (List Char)
  uri : List Char
deriving DecidableEq

structure GroundingChunk where
  web : Option WebRef
deriving DecidableEq

def sourcePlaceholder : List Char := "참조 자료".toList

def sourcesKey : List Char := "sources".toList

/-- `{title: chunk.web.title || "참조 자료", uri: chunk.web.uri}` (line 155). -/
def chunkEntry (w : WebRef) : Json :=
  Json.obj [("title".toList,
    Json.str (match w.title with
      | some t => if t = [] then sourcePlaceholder else t
      | none => sourcePlaceholder)),
    ("uri".toList, Json.str w.uri)]

/-- `groundingChunks.filter(c => c.web).map(...)` (lines 153-158). -/
def searchSources (chunks : List GroundingChunk) : List Json :=
  (chunks.filter (fun c => c.web.isSome)).map (fun c =>
    match c.web with
    | some w => chunkEntry w
    | none => Json.null)

/-- `data.sources || []` spread into an array (line 162): an array value
contributes its elements, anything absent or falsy contributes nothing.
(A truthy non-array value would throw at the spread in JavaScript; no claim
exercises that case.) -/
def ownSources (fields : List (List Char × Json)) : List Json :=
  match lookupKV sourcesKey fields with
  | some (Json.arr xs) => xs
  | _ => []

/-- `[...(data.sources || []), ...searchSources]` (line 162). -/
def mergeSources (fields : List (List Char × Json)) (chunks : List GroundingChunk) :
    List Json :=
  ownSources fields ++ searchSources chunks

/-- `{...data, sources: merged}` (lines 160-163) on the parsed record's
fields. -/
def finalizeFields (fields : List (List Char × Json)) (chunks : List GroundingChunk) :
    List (List Char × Json) :=
  objInsert fields sourcesKey (Json.arr (mergeSources fields chunks))

/-- The enumerable fields a spread `{...data}` copies. Spreading a primitive
copies nothing (a string would enumerate its indices; no claim exercises it). -/
def objFields : Json → List (List Char × Json)
  | Json.obj fs => fs
  | _ => []

def finalizeJson (data : Json) (chunks : List GroundingChunk) : Json :=
  Json.obj (finalizeFields (objFields data) chunks)

/-! ## Prompt assembly (`geminiService.ts` lines 14-41)

The template literals are transcribed verbatim, newlines and indentation
included. -/

def defaultMethodology : List Char :=
  ("\n    - 시장 규모 (TAM, SAM, SOM): 2026년 기준의 달러($B) 단위 예상치를 산출하십시오.\n    - 성장 단계: S-Curve 및 시장 침투율을 기반으로 판단하십시오.\n    - 유닛 이코노믹스: LTV, CAC, 공헌 이익률 등을 2026년 가이던스 추정치로 계산하십시오.\n    - 매수 전략: 현재 주가 상황을 반영하여 단기/중기/장기 전략을 수립하십시오.\n  ").toList

def userMethodologyHeader : List Char :=
  "사용자가 제공한 다음 분석 방법론을 엄격히 적용하십시오:\n".toList

def defaultMethodologyBlock : List Char :=
  "기본 분석 방법론(올랜도 킴 모델)을 적용하십시오:\n".toList ++ defaultMethodology

/-- Line 21: `customMethodology ? "사용자가 제공한 …:\n" + customMethodology
: "기본 …:\n" + defaultMethodology`; an absent or empty text is falsy. -/
def methodologyToUse (custom : Option (List Char)) : List Char :=
  match custom with
  | some c => if c = [] then defaultMethodologyBlock else userMethodologyHeader ++ c
  | none => defaultMethodologyBlock

def siPre : List Char :=
  "\n    당신은 세계 최고의 퀀트 투자 분석가입니다.\n    입력된 티커 \"".toList

def siMid : List Char :=
  ("\"를 다음 방법론에 따라 심층 분석하여 정량적 데이터를 도출하십시오.\n\n    [적용할 분석 방법론]\n    ").toList

def siPost : List Char :=
  ("\n\n    [출력 규칙]\n    - 반드시 **한국어**로 답변하십시오.\n    - 출력은 **순수 JSON**이어야 합니다. 마크다운 코드 블록을 사용하지 마십시오.\n    - googleSearch 도구를 사용하여 최신 시장 데이터와 2026년 추정치를 반영하십시오.\n  ").toList

/-- The `systemInstruction` template of lines 23-34. -/
def systemInstruction (ticker : List Char) (custom : Option (List Char)) :
    List Char :=
  siPre ++ ticker ++ siMid ++ methodologyToUse custom ++ siPost

/-- The user content of line 41. -/
def userContents (ticker : List Char) : List Char :=
  "미국 주식 ".toList ++ ticker ++
    "에 대해 제공된 방법론을 적용한 상세 정량 보고서를 JSON으로 작성해줘.".toList

/-! ## The analyzeStock pipeline (`geminiService.ts` lines 5-168)

The remote provider is an oracle parameter; the second component of the
result records every generation request issued, so "no remote call was
attempted" is the statement that this log is empty. -/

structure GenRequest where
  model : List Char
  contents : List Char
  systemInstruction : List Char
deriving DecidableEq

structure GenResponse where
  /-- `response.text`, possibly absent -/
  text : Option (List Char)
  /-- `response.candidates?.[0]?.groundingMetadata?.groundingChunks || []`
  (line 152), after the default -/
  groundingChunks : List GroundingChunk
deriving DecidableEq

inductive AnalyzeErr where
  /-- the thrown `Error("API Key must be set. …")` of line 8 -/
  | apiKeyMissing : AnalyzeErr
  /-- a failure of the extraction block (rethrown unchanged by line 166) -/
  | extraction : ExtractErr → AnalyzeErr
  /-- an error thrown by the provider call (rethrown unchanged by line 166) -/
  | upstream : List Char → AnalyzeErr
deriving DecidableEq

/-- `!apiKey`: absent or empty is falsy. -/
def jsFalsyStr : Option (List Char) → Bool
  | none => true
  | some s => s.isEmpty

def analyzeStock (apiKey : Option (List Char)) (ticker : List Char)
    (customMethodology : Option (List Char))
    (remote : GenRequest → Except (List Char) GenResponse) :
    Except AnalyzeErr Json × List GenRequest :=
  if jsFalsyStr apiKey then (.error .apiKeyMissing, [])
  else
    let req : GenRequest :=
      { model := "gemini-3-flash-preview".toList
        contents := userContents ticker
        systemInstruction := systemInstruction ticker customMethodology }
    match remote req with
    | .error e => (.error (.upstream e), [req])
    | .ok resp =>
      match extractResponse (resp.text.getD []) with
      | .error e => (.error (.extraction e), [req])
      | .ok data => (.ok (finalizeJson data resp.groundingChunks), [req])

/-! ## Error classification (`App.tsx` lines 338-361) -/

inductive ErrCategory where
  | timeout : ErrCategory
  | quotaExceeded : ErrCategory
  | credentialMissing : ErrCategory
  | safetyBlocked : ErrCategory
  | unknown : ErrCategory
deriving DecidableEq

/-- The sentinel `"TIMEOUT"` rejected by the timer promise (line 332). -/
def timeoutSentinel : List Char := "TIMEOUT".toList

def headIsBrace : List Char → Bool
  | '{' :: _ => true
  | _ => false

/-- Lines 342-348: a message starting with `'{'` is JSON-parsed and replaced
by `parsed.error?.message` when that is a truthy string; parse failures are
swallowed. (A truthy non-string `message` would replace the message with a
non-string in JavaScript and break the later string operations; no claim
exercises it, the original message is kept here.) -/
def preprocessMsg (msg : List Char) : List Char :=
  if headIsBrace msg then
    match parseJson msg with
    | some (Json.obj fs) =>
      match lookupKV "error".toList fs with
      | some (Json.obj efs) =>
        match lookupKV "message".toList efs with
        | some (Json.str s) => if s = [] then msg else s
        | _ => msg
      | _ => msg
    | _ => msg
  else msg

/-- The `if`-cascade of lines 350-361 mapped onto the failure taxonomy. -/
def classifyError (msg : List Char) : ErrCategory :=
  let m := preprocessMsg msg
  if m = timeoutSentinel then .timeout
  else if containsSub "quota".toList m || containsSub "429".toList m ||
      containsSub "RESOURCE_EXHAUSTED".toList m then .quotaExceeded
  else if m = "API_KEY_MISSING".toList || containsSub "401".toList m then
    .credentialMissing
  else if containsSub "safety".toList m || containsSub "blocked".toList m then
    .safetyBlocked
  else .unknown

/-! ## The timeout race (`App.tsx` lines 330-336)

A promise either settles at some instant with a result or never settles.
`Promise.race` settles with whichever of its arguments settles first (the
first argument on a tie, as it is registered first); it has no way of
cancelling the loser. -/

inductive JsPromise (V E : Type) where
  | settledAt : Nat → Except E V → JsPromise V E
  | pending : JsPromise V E

def promiseRace {V E : Type} : JsPromise V E → JsPromise V E → JsPromise V E
  | .settledAt t r, .settledAt u s =>
    if t ≤ u then .settledAt t r else .settledAt u s
  | .settledAt t r, .pending => .settledAt t r
  | .pending, q => q

/-- The 90-second bound of line 330. -/
def analysisTimeoutMs : Nat := 90000

/-- The timer promise of lines 332-334: it rejects with the sentinel once the
bound elapses. -/
def timeoutPromise (V : Type) (bound : Nat) : JsPromise V (List Char) :=
  .settledAt bound (.error timeoutSentinel)

/-- `Promise.race([analysisPromise, timeoutPromise])` of line 336. -/
def racedAnalysis {V : Type} (call : JsPromise V (List Char)) :
    JsPromise V (List Char) :=
  promiseRace call (timeoutPromise V analysisTimeoutMs)

/-! ## Helper lemmas -/

theorem trimWS_cons_nl (l : List Char) : trimWS ('\n' :: l) = trimWS l := rfl

theorem trimWS_append_nl (l : List Char) : trimWS (l ++ ['\n']) = trimWS l := by
  unfold trimWS
  rw [List.dropWhile_append]
  rcases hd : l.dropWhile isJsWS with _ | ⟨a, rest⟩
  · rfl
  · rw [if_neg (by simp)]
    rw [List.reverse_append]
    rfl

theorem containsSub_cons (p : List Char) (c : Char) (rest : List Char) :
    containsSub p (c :: rest) = (p.isPrefixOf (c :: rest) || containsSub p rest) :=
  rfl

theorem isPrefixOf_self_append (p t : List Char) : p.isPrefixOf (p ++ t) = true := by
  induction p with
  | nil => simp
  | cons c p ih => simp [List.isPrefixOf_cons₂, ih]

theorem isPrefixOf_append_left {p l : List Char} (h : p.isPrefixOf l = true)
    (y : List Char) : p.isPrefixOf (l ++ y) = true := by
  induction p generalizing l with
  | nil => simp
  | cons c p ih =>
    cases l with
    | nil => simp at h
    | cons a l =>
      rw [List.isPrefixOf_cons₂] at h
      simp only [Bool.and_eq_true] at h
      rw [List.cons_append, List.isPrefixOf_cons₂]
      simp [h.1, ih h.2]

theorem containsSub_of_isPrefixOf {p l : List Char} (h : p.isPrefixOf l = true) :
    containsSub p l = true := by
  cases l with
  | nil => exact h
  | cons c rest => rw [containsSub_cons, h]; rfl

theorem containsSub_append_right {p l : List Char} (h : containsSub p l = true)
    (x : List Char) : containsSub p (x ++ l) = true := by
  induction x with
  | nil => exact h
  | cons c x ih =>
    rw [List.cons_append, containsSub_cons, ih]
    simp

theorem containsSub_append_left {p l : List Char} (h : containsSub p l = true)
    (y : List Char) : containsSub p (l ++ y) = true := by
  induction l with
  | nil =>
    cases p with
    | nil =>
      cases y with
      | nil => rfl
      | cons c y =>
        show containsSub [] (c :: y) = true
        rw [containsSub_cons]
        simp
    | cons c p => simp [containsSub] at h
  | cons a l ih =>
    rw [containsSub_cons] at h
    rw [List.cons_append, containsSub_cons, ← List.cons_append]
    rcases Bool.or_eq_true_iff.mp h with h1 | h2
    · rw [isPrefixOf_append_left h1]; rfl
    · rw [ih h2]; simp

theorem lookup_map_replace_ne {k' k : List Char} (hk : k' ≠ k)
    (fields : List (List Char × Json)) (v : Json) :
    lookupKV k' (fields.map fun p => if p.1 = k then (k, v) else p) =
      lookupKV k' fields := by
  induction fields with
  | nil => rfl
  | cons p rest ih =>
    by_cases hp : p.1 = k
    · rw [List.map_cons, if_pos hp, lookupKV, lookupKV, ih]
      have hkk : ¬ (k = k') := fun h => hk h.symm
      have hp' : ¬ (p.1 = k') := by rw [hp]; exact hkk
      rw [if_neg hkk, if_neg hp']
    · rw [List.map_cons, if_neg hp, lookupKV, lookupKV, ih]

theorem lookup_map_replace_self {k : List Char} (v : Json)
    (fields : List (List Char × Json))
    (h : fields.any (fun p => p.1 = k) = true) :
    lookupKV k (fields.map fun p => if p.1 = k then (k, v) else p) = some v := by
  induction fields with
  | nil => simp at h
  | cons p rest ih =>
    by_cases hp : p.1 = k
    · rw [List.map_cons, if_pos hp, lookupKV, if_pos rfl]
    · rw [List.map_cons, if_neg hp, lookupKV, if_neg hp]
      have hrest : rest.any (fun p => p.1 = k) = true := by
        simp only [List.any_cons, Bool.or_eq_true, decide_eq_true_eq] at h
        rcases h with h | h
        · exact absurd h hp
        · exact h
      exact ih hrest

theorem lookup_none_of_any_false {k : List Char}
    {fields : List (List Char × Json)}
    (h : fields.any (fun p => p.1 = k) = false) :
    lookupKV k fields = none := by
  induction fields with
  | nil => rfl
  | cons p rest ih =>
    simp only [List.any_cons, Bool.or_eq_false_iff, decide_eq_false_iff_not] at h
    rw [lookupKV, if_neg h.1]
    exact ih (by simp [h.2])

theorem lookup_append_single_ne {k k' : List Char} (hk : k ≠ k')
    (l : List (List Char × Json)) (v : Json) :
    lookupKV k' (l ++ [(k, v)]) = lookupKV k' l := by
  induction l with
  | nil => simp [lookupKV, hk]
  | cons p rest ih =>
    rw [List.cons_append, lookupKV, lookupKV, ih]

theorem lookup_append_single_self {k : List Char}
    {l : List (List Char × Json)} (h : lookupKV k l = none) (v : Json) :
    lookupKV k (l ++ [(k, v)]) = some v := by
  induction l with
  | nil => simp [lookupKV]
  | cons p rest ih =>
    rw [lookupKV] at h
    by_cases hp : p.1 = k
    · rw [if_pos hp] at h; exact absurd h (by simp)
    · rw [if_neg hp] at h
      rw [List.cons_append, lookupKV, if_neg hp]
      exact ih h

theorem lookup_objInsert_self (fields : List (List Char × Json)) (k : List Char)
    (v : Json) : lookupKV k (objInsert fields k v) = some v := by
  unfold objInsert
  cases h : fields.any (fun p => p.1 = k) with
  | true =>
    rw [if_pos rfl]
    exact lookup_map_replace_self v fields h
  | false =>
    rw [if_neg (by simp)]
    exact lookup_append_single_self (lookup_none_of_any_false h) v

theorem lookup_objInsert_ne {k' k : List Char} (hk : k' ≠ k)
    (fields : List (List Char × Json)) (v : Json) :
    lookupKV k' (objInsert fields k v) = lookupKV k' fields := by
  unfold objInsert
  cases h : fields.any (fun p => p.1 = k) with
  | true =>
    rw [if_pos rfl]
    exact lookup_map_replace_ne hk fields v
  | false =>
    rw [if_neg (by simp)]
    exact lookup_append_single_ne (fun he => hk he.symm) fields v

theorem stripFences_json_marker (xs : List Char) :
    stripFences ('`' :: '`' :: '`' :: 'j' :: 's' :: 'o' :: 'n' :: xs) =
      stripFences xs := rfl

/-! ## Claims about the response extraction (C1, C2, C4) -/

/-- C1 counterexample: the text `{"a":"x```y"}` is a valid JSON object, but
the extraction strips the fence marker inside the string value before
parsing, so it returns `{"a":"xy"}` instead of the directly parsed object —
the direct-parse path is not a no-op transform on texts whose string values
contain fence markers. -/
theorem extract_direct_parse_counterexample :
    parseJson "\x7b\"a\":\"x```y\"\x7d".toList =
      some (Json.obj [("a".toList, Json.str "x```y".toList)]) ∧
    extractResponse "\x7b\"a\":\"x```y\"\x7d".toList =
      .ok (Json.obj [("a".toList, Json.str "xy".toList)]) ∧
    Json.obj [("a".toList, Json.str "x```y".toList)] ≠
      Json.obj [("a".toList, Json.str "xy".toList)] := by
  refine ⟨rfl, rfl, ?_⟩
  intro h
  injection h with h
  injection h with h1 h2
  injection h1 with ha hb
  injection hb with hb
  exact absurd hb (by decide)

/-- C1 (amended): for every input text containing no fence marker that
parses as JSON after trimming, the extraction returns exactly the directly
parsed value — the global fence replacement is the identity on such texts. -/
theorem extract_direct_parse_of_no_fence (t : List Char) (j : Json)
    (hf : hasFence t = false) (hp : parseJson (trimWS t) = some j) :
    extractResponse t = .ok j := by
  unfold extractResponse
  rw [stripFences_of_no_fence hf, hp]

theorem extract_direct_parse_of_no_fence_witness :
    hasFence "\x7b\"ok\":true\x7d".toList = false ∧
    parseJson (trimWS "\x7b\"ok\":true\x7d".toList) =
      some (Json.obj [("ok".toList, Json.bool true)]) ∧
    extractResponse "\x7b\"ok\":true\x7d".toList =
      .ok (Json.obj [("ok".toList, Json.bool true)]) :=
  ⟨rfl, rfl, extract_direct_parse_of_no_fence _ _ rfl rfl⟩

/-- C2 counterexample: on `{oops}` every extraction step fails to produce a
value, yet the failure raised is the unguarded `SyntaxError` from parsing
the bracket span (line 146), not the typed malformed-response error. -/
theorem extract_malformed_counterexample :
    extractResponse "\x7boops\x7d".toList = .error .syntaxError ∧
    ExtractErr.syntaxError ≠ ExtractErr.malformedResponse := ⟨rfl, by decide⟩

/-- C2 (amended): the extraction is total — it always returns either a
parsed value or an error, never a partial result; when the fence-stripped
trimmed text fails to parse and the text has no bracket span (the empty text
included), the failure is the typed malformed-response error; but when a
bracket span exists and itself fails to parse, the raised failure is the
propagated parse error instead. -/
theorem extract_total_and_malformed (raw : List Char) :
    ((∃ j, extractResponse raw = .ok j) ∨ (∃ e, extractResponse raw = .error e)) ∧
    (parseJson (trimWS (stripFences raw)) = none → bracketSpan raw = none →
      extractResponse raw = .error .malformedResponse) ∧
    (∀ s, parseJson (trimWS (stripFences raw)) = none → bracketSpan raw = some s →
      parseJson s = none → extractResponse raw = .error .syntaxError) := by
  refine ⟨?_, ?_, ?_⟩
  · cases h : extractResponse raw with
    | ok j => exact Or.inl ⟨j, rfl⟩
    | error e => exact Or.inr ⟨e, rfl⟩
  · intro h1 h2
    simp only [extractResponse, h1, h2]
  · intro s h1 h2 h3
    simp only [extractResponse, h1, h2, h3]

theorem extract_total_and_malformed_witness :
    extractResponse "".toList = .error .malformedResponse ∧
    extractResponse "no json here".toList = .error .malformedResponse ∧
    extractResponse "\x7bbad\x7d".toList = .error .syntaxError :=
  ⟨(extract_total_and_malformed "".toList).2.1 rfl rfl,
   (extract_total_and_malformed "no json here".toList).2.1 rfl rfl,
   (extract_total_and_malformed "\x7bbad\x7d".toList).2.2 _ rfl rfl rfl⟩

/-- C4 counterexample: wrapping the valid JSON object `{"a":"x```y"}` in a
fenced JSON code block does not make the extraction return the inner
object: the replacement removes every fence marker globally, including the
one inside the string value, so the result is `{"a":"xy"}`, not the parse of
the inner content. -/
theorem extract_fenced_counterexample :
    parseJson "\x7b\"a\":\"x```y\"\x7d".toList =
      some (Json.obj [("a".toList, Json.str "x```y".toList)]) ∧
    extractResponse "```json\n\x7b\"a\":\"x```y\"\x7d\n```".toList =
      .ok (Json.obj [("a".toList, Json.str "xy".toList)]) ∧
    Json.obj [("a".toList, Json.str "xy".toList)] ≠
      Json.obj [("a".toList, Json.str "x```y".toList)] := by
  refine ⟨rfl, rfl, ?_⟩
  intro h
  injection h with h
  injection h with h1 h2
  injection h1 with ha hb
  injection hb with hb
  exact absurd hb (by decide)

/-- C4 (amended): for every fence-marker-free JSON object text wrapped in a
fenced JSON code block, the extraction returns the parse of the inner
content — achieved by removing every fence marker globally rather than by
cutting the content between the first opening and the next closing
marker. -/
theorem extract_fenced_of_no_fence (t : List Char) (j : Json)
    (hf : hasFence t = false) (hp : parseJson (trimWS t) = some j) :
    extractResponse ("```json\n".toList ++ t ++ "\n```".toList) = .ok j := by
  have hX : hasFence ('\n' :: t) = false := by
    rw [hasFence_cons, startsFence_false_of_head (by decide) t, hf]
    rfl
  have hstrip : stripFences (('\n' :: t) ++ "\n```".toList) =
      ('\n' :: t) ++ stripFences "\n```".toList :=
    stripFences_append _ hX rfl
  have hs : stripFences ("```json\n".toList ++ t ++ "\n```".toList) =
      '\n' :: (t ++ ['\n']) := by
    show stripFences
        ('`' :: '`' :: '`' :: 'j' :: 's' :: 'o' :: 'n' ::
          (('\n' :: t) ++ "\n```".toList)) = _
    rw [stripFences_json_marker, hstrip]
    rfl
  unfold extractResponse
  rw [hs, trimWS_cons_nl, trimWS_append_nl, hp]

theorem extract_fenced_of_no_fence_witness :
    hasFence "\x7b\"ok\":true\x7d".toList = false ∧
    extractResponse ("```json\n".toList ++ "\x7b\"ok\":true\x7d".toList ++
        "\n```".toList) = .ok (Json.obj [("ok".toList, Json.bool true)]) :=
  ⟨rfl, extract_fenced_of_no_fence _ _ rfl rfl⟩

/-! ## Claim about error classification (C3) -/

/-- C3 counterexample: the message `TIMEOUT: quota exceeded` contains both
the timeout sentinel and a quota marker, yet the classifier returns the
quota category — the sentinel check is a strict equality, not a containment
check, so it does not fire on messages that merely contain the sentinel. -/
theorem classify_sentinel_containment_counterexample :
    containsSub timeoutSentinel "TIMEOUT: quota exceeded".toList = true ∧
    containsSub "quota".toList "TIMEOUT: quota exceeded".toList = true ∧
    classifyError "TIMEOUT: quota exceeded".toList = .quotaExceeded ∧
    ErrCategory.quotaExceeded ≠ ErrCategory.timeout :=
  ⟨rfl, rfl, rfl, by decide⟩

/-- C3 (amended): the timeout check has top priority but is an exact
equality with the sentinel: a message equal to the sentinel is classified
Timeout before the quota check, while a message that differs from the
sentinel and contains a quota marker is classified QuotaExceeded, even if
it also contains the sentinel. -/
theorem classify_timeout_exact_priority (msg : List Char)
    (hne : msg ≠ timeoutSentinel) (hb : headIsBrace msg = false)
    (hq : containsSub "quota".toList msg = true) :
    classifyError timeoutSentinel = .timeout ∧
    classifyError msg = .quotaExceeded := by
  constructor
  · rfl
  · have hpre : preprocessMsg msg = msg := by
      unfold preprocessMsg
      rw [hb, if_neg (by simp)]
    unfold classifyError
    simp only [hpre]
    rw [if_neg hne, hq]
    simp

theorem classify_timeout_exact_priority_witness :
    classifyError timeoutSentinel = .timeout ∧
    classifyError "TIMEOUT while over quota".toList = .quotaExceeded :=
  classify_timeout_exact_priority "TIMEOUT while over quota".toList
    (by decide) rfl rfl

/-! ## Claim about the grounding-source merge (C5) -/

theorem searchSources_cons_some {c : GroundingChunk} {w : WebRef}
    (hw : c.web = some w) (rest : List GroundingChunk) :
    searchSources (c :: rest) = chunkEntry w :: searchSources rest := by
  unfold searchSources
  simp [List.filter_cons, hw]

theorem searchSources_cons_none {c : GroundingChunk} (hw : c.web = none)
    (rest : List GroundingChunk) :
    searchSources (c :: rest) = searchSources rest := by
  unfold searchSources
  simp [List.filter_cons, hw]

/-- C5: the merged source list is the record's own sources (empty when the
field is absent) followed by the web-bearing grounding chunks in their
original order, each mapped to its title (or the placeholder) and uri; its
length is the sum of the two group sizes, and element counts add up for
every predicate, so duplicates across the groups are kept. -/
theorem mergeSources_spec (fields : List (List Char × Json))
    (chunks : List GroundingChunk) :
    (mergeSources fields chunks).length =
      (ownSources fields).length + chunks.countP (fun c => c.web.isSome) ∧
    mergeSources fields chunks =
      ownSources fields ++ chunks.filterMap (fun c => c.web.map chunkEntry) ∧
    (∀ p : Json → Bool, (mergeSources fields chunks).countP p =
      (ownSources fields).countP p + (searchSources chunks).countP p) ∧
    (lookupKV sourcesKey fields = none → ownSources fields = []) := by
  have hss : searchSources chunks =
      chunks.filterMap (fun c => c.web.map chunkEntry) := by
    induction chunks with
    | nil => rfl
    | cons c rest ih =>
      cases hw : c.web with
      | some w => simp [searchSources_cons_some hw, List.filterMap_cons, hw, ih]
      | none => simp [searchSources_cons_none hw, List.filterMap_cons, hw, ih]
  refine ⟨?_, ?_, ?_, ?_⟩
  · simp only [mergeSources, List.length_append, searchSources,
      List.length_map, List.countP_eq_length_filter]
  · rw [mergeSources, hss]
  · intro p
    simp only [mergeSources, List.countP_append]
  · intro h
    simp only [ownSources, h]

theorem mergeSources_spec_witness :
    lookupKV sourcesKey [("a".toList, Json.null)] = none ∧
    ownSources [("a".toList, Json.null)] = [] ∧
    (mergeSources [("a".toList, Json.null)]
      [⟨some ⟨none, "u1".toList⟩⟩, ⟨none⟩]).length = 0 + 1 :=
  ⟨rfl,
   (mergeSources_spec [("a".toList, Json.null)] []).2.2.2 rfl,
   ((mergeSources_spec [("a".toList, Json.null)]
      [⟨some ⟨none, "u1".toList⟩⟩, ⟨none⟩]).1).trans rfl⟩

/-! ## Claims about the prompt (C6, C7) -/

/-- C6 counterexample: the system instruction is built from the ticker and
the methodology only — it nowhere states the current date (taking
2026-10-11 as the current date, in the local date format the repository
uses elsewhere and in ISO format), so forward-looking estimates get no
temporal anchor from it. -/
theorem systemInstruction_no_current_date :
    containsSub "2026. 10. 11.".toList
      (systemInstruction "NVDA".toList none) = false ∧
    containsSub "2026-10-11".toList
      (systemInstruction "NVDA".toList none) = false :=
  ⟨by decide, by decide⟩

/-- C6 (amended): the system instruction assigns the analyst persona, embeds
the ticker and the resolved methodology, mandates a Korean response, mandates
pure JSON without markdown fences, and instructs use of the web-search tool —
but it does not state the current date. -/
theorem systemInstruction_contents (ticker : List Char)
    (custom : Option (List Char)) :
    containsSub "퀀트 투자 분석가".toList (systemInstruction ticker custom) = true ∧
    containsSub ticker (systemInstruction ticker custom) = true ∧
    containsSub (methodologyToUse custom) (systemInstruction ticker custom) = true ∧
    containsSub "한국어".toList (systemInstruction ticker custom) = true ∧
    containsSub "순수 JSON".toList (systemInstruction ticker custom) = true ∧
    containsSub "마크다운 코드 블록을 사용하지 마십시오".toList
      (systemInstruction ticker custom) = true ∧
    containsSub "googleSearch".toList (systemInstruction ticker custom) = true := by
  refine ⟨?_, ?_, ?_, ?_, ?_, ?_, ?_⟩ <;>
    simp only [systemInstruction, List.append_assoc]
  · exact containsSub_append_left
      (show containsSub "퀀트 투자 분석가".toList siPre = true by decide) _
  · exact containsSub_append_right
      (containsSub_of_isPrefixOf (isPrefixOf_self_append _ _)) _
  · exact containsSub_append_right (containsSub_append_right
      (containsSub_append_right
        (containsSub_of_isPrefixOf (isPrefixOf_self_append _ _)) siMid) ticker) siPre
  · exact containsSub_append_right (containsSub_append_right
      (containsSub_append_right (containsSub_append_right
        (show containsSub "한국어".toList siPost = true by decide)
        (methodologyToUse custom)) siMid) ticker) siPre
  · exact containsSub_append_right (containsSub_append_right
      (containsSub_append_right (containsSub_append_right
        (show containsSub "순수 JSON".toList siPost = true by decide)
        (methodologyToUse custom)) siMid) ticker) siPre
  · exact containsSub_append_right (containsSub_append_right
      (containsSub_append_right (containsSub_append_right
        (show containsSub "마크다운 코드 블록을 사용하지 마십시오".toList siPost = true
          by decide)
        (methodologyToUse custom)) siMid) ticker) siPre
  · exact containsSub_append_right (containsSub_append_right
      (containsSub_append_right (containsSub_append_right
        (show containsSub "googleSearch".toList siPost = true by decide)
        (methodologyToUse custom)) siMid) ticker) siPre

/-- C7: a present non-empty methodology is embedded verbatim (appended
unchanged after a fixed header, and contained in the instruction); an
absent or empty methodology falls back to the fixed built-in block, whose
methodology text is contained in the instruction. -/
theorem methodology_resolution (ticker c : List Char) (h : c ≠ []) :
    methodologyToUse (some c) = userMethodologyHeader ++ c ∧
    containsSub c (systemInstruction ticker (some c)) = true ∧
    methodologyToUse none = defaultMethodologyBlock ∧
    methodologyToUse (some []) = defaultMethodologyBlock ∧
    containsSub defaultMethodology (systemInstruction ticker none) = true := by
  have hM : methodologyToUse (some c) = userMethodologyHeader ++ c := by
    simp only [methodologyToUse]
    rw [if_neg h]
  refine ⟨hM, ?_, rfl, rfl, ?_⟩
  · simp only [systemInstruction, hM, List.append_assoc]
    exact containsSub_append_right (containsSub_append_right
      (containsSub_append_right (containsSub_append_right
        (containsSub_of_isPrefixOf (isPrefixOf_self_append _ _))
        userMethodologyHeader) siMid) ticker) siPre
  · simp only [systemInstruction, methodologyToUse, defaultMethodologyBlock,
      List.append_assoc]
    exact containsSub_append_right (containsSub_append_right
      (containsSub_append_right (containsSub_append_right
        (containsSub_of_isPrefixOf (isPrefixOf_self_append _ _)) _) siMid) ticker) siPre

theorem methodology_resolution_witness :
    "나의 방법론".toList ≠ [] ∧
    methodologyToUse (some "나의 방법론".toList) =
      userMethodologyHeader ++ "나의 방법론".toList ∧
    containsSub "나의 방법론".toList
      (systemInstruction "TSLA".toList (some "나의 방법론".toList)) = true :=
  ⟨by decide, (methodology_resolution "TSLA".toList _ (by decide)).1,
   (methodology_resolution "TSLA".toList _ (by decide)).2.1⟩

/-! ## Claim about the credential check (C8) -/

/-- C8: with no configured API key (absent or empty, both falsy), the call
fails with the credential-missing error before anything else happens — in
particular the request log is empty, so no generation request was issued
and no partial result exists. -/
theorem analyzeStock_missing_key (apiKey : Option (List Char))
    (ticker : List Char) (custom : Option (List Char))
    (remote : GenRequest → Except (List Char) GenResponse)
    (h : jsFalsyStr apiKey = true) :
    analyzeStock apiKey ticker custom remote = (.error .apiKeyMissing, []) := by
  unfold analyzeStock
  rw [h, if_pos rfl]

theorem analyzeStock_missing_key_witness :
    jsFalsyStr none = true ∧
    analyzeStock none "NVDA".toList none (fun _ => .error []) =
      (.error .apiKeyMissing, []) :=
  ⟨rfl, analyzeStock_missing_key none "NVDA".toList none _ rfl⟩

/-! ## Claim about the timeout race (C9) -/

/-- C9: when the provider call never settles, the race settles with the
timer's TIMEOUT rejection at the configured 90000 ms bound, which the
classifier maps to the Timeout category; and the race only selects one of
its two promises — it never alters (in particular never cancels) either. -/
theorem timeout_race_timeout (call : JsPromise Json (List Char))
    (h : call = .pending) :
    racedAnalysis call =
      .settledAt analysisTimeoutMs (.error timeoutSentinel) ∧
    classifyError timeoutSentinel = .timeout ∧
    (∀ (q r : JsPromise Json (List Char)),
      promiseRace q r = q ∨ promiseRace q r = r) := by
  subst h
  refine ⟨rfl, rfl, ?_⟩
  intro q r
  cases q with
  | pending => exact Or.inr rfl
  | settledAt t s =>
    cases r with
    | pending => exact Or.inl rfl
    | settledAt u s' =>
      by_cases hle : t ≤ u
      · exact Or.inl (by simp [promiseRace, hle])
      · exact Or.inr (by simp [promiseRace, hle])

theorem timeout_race_timeout_witness :
    racedAnalysis (JsPromise.pending : JsPromise Json (List Char)) =
      .settledAt analysisTimeoutMs (.error timeoutSentinel) :=
  (timeout_race_timeout .pending rfl).1

/-! ## Claim about the final-result frame (C10) -/

/-- C10: the final result agrees with the parsed record on every field other
than `sources` (whatever the field, declared in the schema or not), and the
`sources` field holds exactly the merged source list. -/
theorem finalize_frame (fields : List (List Char × Json))
    (chunks : List GroundingChunk) (k : List Char) (hk : k ≠ sourcesKey) :
    lookupKV k (finalizeFields fields chunks) = lookupKV k fields ∧
    lookupKV sourcesKey (finalizeFields fields chunks) =
      some (Json.arr (mergeSources fields chunks)) := by
  unfold finalizeFields
  exact ⟨lookup_objInsert_ne hk fields _, lookup_objInsert_self fields _ _⟩

theorem finalize_frame_witness :
    lookupKV "ticker".toList
      (finalizeFields [("ticker".toList, Json.str "NVDA".toList)] []) =
      some (Json.str "NVDA".toList) ∧
    lookupKV sourcesKey
      (finalizeFields [("ticker".toList, Json.str "NVDA".toList)] []) =
      some (Json.arr []) := by
  have h := finalize_frame [("ticker".toList, Json.str "NVDA".toList)] []
    "ticker".toList (by decide)
  exact ⟨h.1.trans rfl, h.2.trans rfl⟩

end CustomStrategy
